import Mathlib

/-!
# Verification of the serde-transcode driver (`src/lib.rs`)

Shallow embedding of the transcoding algorithm of `serde-transcode`.

The source document produced by a `Deserializer` is modelled by the
inductive `SValue`; a `Deserializer` over such a value answers
`deserialize_any` by dispatching on the value's shape and invoking the
matching `Visitor` callback, exactly as a self-describing format does.
Failure points of the source are part of the `SValue`: a `fail` node makes
`deserialize_any` return a deserializer error at that position, and the
`pullFail` field of `seq`/`map` makes the iterator's next-element /
next-key pull fail after all listed items were yielded.

The `Serializer` is modelled canonically: it records every call it
receives in a trace (`SerState.trace`), together with the source-side
pull events, and can be scripted via `SerState.failAt` to fail at one
given call index.  Calls that receive a payload (`serialize_some`,
`serialize_newtype_struct`, `serialize_element`, `serialize_key`,
`serialize_value`) record their own begin marker and then drive the
payload `Transcoder` with the same sink state, as concrete serializers do.

Floating point numbers are modelled by their bit patterns (`Nat`): the
driver only forwards them and never computes with them, so value identity
is bit identity here.

`Transcoder`, `Transcoder.serialize`, `take_last_deserializer_error`,
`transcode` and the `Error` union follow `src/lib.rs` lines 48-156; the
`with_transcoder!` macro (lines 169-181) is the function
`with_transcoder`, and the recursion inside the visitor inlines its
expansion (the lemma `with_transcoder_eq` proves the inlining exact).
A Rust panic (the `.expect` on line 144) is modelled as `Option.none`.
-/

namespace SerdeTranscode

/-- Error of the model `Deserializer` (`D::Error`).  `custom` carries the
rendered message, matching a `de::Error` whose `Display` prints it. -/
inductive DeError where
  | custom (msg : String)
deriving DecidableEq, Repr

/-- Rendering `to_string()` of a deserializer error (its `Display` rendering),
used by `<S::Error as ser::Error>::custom(de_err.to_string())`. -/
def DeError.render : DeError → String
  | .custom m => m

/-- Error of the model `Serializer` (`S::Error`): either the scripted
failure of the model sink at call index `n`, or the value built by
`ser::Error::custom` from a rendered message (lib.rs line 150). -/
inductive SerError where
  | failed (n : Nat)
  | custom (msg : String)
deriving DecidableEq, Repr

/-- One call received by the model `Serializer`; constructors mirror the
`serialize_*` methods invoked by the `Visitor` impl (lib.rs 192-353). -/
inductive SerCall where
  | sBool (b : Bool)
  | sI8 (n : Int)
  | sI16 (n : Int)
  | sI32 (n : Int)
  | sI64 (n : Int)
  | sI128 (n : Int)
  | sU8 (n : Nat)
  | sU16 (n : Nat)
  | sU32 (n : Nat)
  | sU64 (n : Nat)
  | sU128 (n : Nat)
  | sF32 (bits : Nat)
  | sF64 (bits : Nat)
  | sChar (c : Char)
  | sStr (s : String)
  | sBytes (bs : List Nat)
  | sUnit
  | sNone
  | sSome
  | sNewtypeStruct (name : String)
  | seqBegin (hint : Option Nat)
  | elementBegin
  | seqEnd
  | mapBegin (hint : Option Nat)
  | keyBegin
  | valueBegin
  | mapEnd
deriving DecidableEq, Repr

/-- Observable event: a sink call being received, or the driver pulling
the next element / key / value from the source iterator
(`next_element_seed` / `next_key_seed` / `next_value_seed`). -/
inductive Event where
  | call (c : SerCall)
  | pullElement
  | pullKey
  | pullValue
deriving DecidableEq, Repr

/-- A source document, together with its failure points.

`fail msg` is a position where the `Deserializer`'s `deserialize_any`
fails with `DeError.custom msg` before invoking any visitor method.
`seq`/`map` carry the `size_hint` the source reports, the items it
yields, and `pullFail`: when `some msg`, the pull following the last
yielded item (`next_element_seed` / `next_key_seed`) fails instead of
signalling end-of-items.  `newtypeStruct` records the wrapper name of
the source document; serde's `visit_newtype_struct` does not receive it. -/
inductive SValue where
  | vBool (b : Bool)
  | vI8 (n : Int)
  | vI16 (n : Int)
  | vI32 (n : Int)
  | vI64 (n : Int)
  | vI128 (n : Int)
  | vU8 (n : Nat)
  | vU16 (n : Nat)
  | vU32 (n : Nat)
  | vU64 (n : Nat)
  | vU128 (n : Nat)
  | vF32 (bits : Nat)
  | vF64 (bits : Nat)
  | vChar (c : Char)
  | vStr (s : String)
  | vBytes (bs : List Nat)
  | vUnit
  | vNone
  | vSome (inner : SValue)
  | newtypeStruct (name : String) (inner : SValue)
  | seq (hint : Option Nat) (elems : List SValue) (pullFail : Option String)
  | map (hint : Option Nat) (entries : List (SValue × SValue)) (pullFail : Option String)
  | fail (msg : String)

/-- State of the model `Serializer`: the trace of events so far, the
number of sink calls received so far, and an optional call index at
which the sink is scripted to fail. -/
structure SerState where
  trace : List Event
  calls : Nat
  failAt : Option Nat
deriving DecidableEq, Repr

/-- The model sink receives one call: it is recorded in the trace, the
call counter advances, and the call errors exactly when the scripted
failure index equals the current counter. -/
def serCall (st : SerState) (c : SerCall) : SerState × Except SerError Unit :=
  let st' : SerState :=
    { st with trace := st.trace ++ [Event.call c], calls := st.calls + 1 }
  if st.failAt = some st.calls then
    (st', Except.error (SerError.failed st.calls))
  else
    (st', Except.ok ())

/-- Record a source-side pull event in the trace. -/
def recordPull (st : SerState) (e : Event) : SerState :=
  { st with trace := st.trace ++ [e] }

/-- Result of driving a `Visitor` from `deserialize_any`: the outer
`Except` is the deserializer's error channel (`Result<_, D::Error>`),
the inner one is the visitor value `Result<S::Ok, S::Error>`
(lib.rs line 186, with `S::Ok` as `Unit`). -/
abbrev DriveResult := Except DeError (Except SerError Unit)

mutual

/-- Method `deserialize_any(Visitor(ser))` of the model deserializer over `sv`:
dispatches on the shape of `sv` and runs the matching `Visitor` method of
lib.rs 192-353.  Primitive shapes are one `serialize_*` call wrapped by
`try_serializer!` (lib.rs 160-167).  `vSome`/`newtypeStruct` run
`with_transcoder!(d, |tr| serialize_some(&tr))` (resp.
`serialize_newtype_struct("<unknown>", &tr)`): the model sink records its
begin marker and then drives the fresh payload transcoder, whose
expansion is exactly a recursive `deserialize_any` on the inner value
(lemma `with_transcoder_eq`).  `seq`/`map` run `visit_seq`/`visit_map`
(lib.rs 314-340): a `serialize_seq`/`serialize_map` call with the
source's size hint, then the pull loop. -/
def deserialize_any : SValue → SerState → SerState × DriveResult
  | .vBool b, st => let q := serCall st (.sBool b); (q.1, .ok q.2)
  | .vI8 n, st => let q := serCall st (.sI8 n); (q.1, .ok q.2)
  | .vI16 n, st => let q := serCall st (.sI16 n); (q.1, .ok q.2)
  | .vI32 n, st => let q := serCall st (.sI32 n); (q.1, .ok q.2)
  | .vI64 n, st => let q := serCall st (.sI64 n); (q.1, .ok q.2)
  | .vI128 n, st => let q := serCall st (.sI128 n); (q.1, .ok q.2)
  | .vU8 n, st => let q := serCall st (.sU8 n); (q.1, .ok q.2)
  | .vU16 n, st => let q := serCall st (.sU16 n); (q.1, .ok q.2)
  | .vU32 n, st => let q := serCall st (.sU32 n); (q.1, .ok q.2)
  | .vU64 n, st => let q := serCall st (.sU64 n); (q.1, .ok q.2)
  | .vU128 n, st => let q := serCall st (.sU128 n); (q.1, .ok q.2)
  | .vF32 bits, st => let q := serCall st (.sF32 bits); (q.1, .ok q.2)
  | .vF64 bits, st => let q := serCall st (.sF64 bits); (q.1, .ok q.2)
  | .vChar c, st => let q := serCall st (.sChar c); (q.1, .ok q.2)
  | .vStr s, st => let q := serCall st (.sStr s); (q.1, .ok q.2)
  | .vBytes bs, st => let q := serCall st (.sBytes bs); (q.1, .ok q.2)
  | .vUnit, st => let q := serCall st .sUnit; (q.1, .ok q.2)
  | .vNone, st => let q := serCall st .sNone; (q.1, .ok q.2)
  | .vSome inner, st =>
    let q := serCall st .sSome
    match q.2 with
    | .error e => (q.1, .ok (.error e))
    | .ok _ => deserialize_any inner q.1
  | .newtypeStruct _ inner, st =>
    let q := serCall st (.sNewtypeStruct "<unknown>")
    match q.2 with
    | .error e => (q.1, .ok (.error e))
    | .ok _ => deserialize_any inner q.1
  | .seq hint elems pf, st =>
    let q := serCall st (.seqBegin hint)
    match q.2 with
    | .error e => (q.1, .ok (.error e))
    | .ok _ => seq_loop elems pf q.1
  | .map hint entries pf, st =>
    let q := serCall st (.mapBegin hint)
    match q.2 with
    | .error e => (q.1, .ok (.error e))
    | .ok _ => map_loop entries pf q.1
  | .fail msg, st => (st, .error (DeError.custom msg))

/-- The `while let` loop of `visit_seq` (lib.rs 321-324).  Each round
records the `next_element_seed` pull; with items left, `SeqSeed`'s
`deserialize` (lib.rs 362-366) runs `with_transcoder!` around
`serialize_element(&tr)`: the sink's element marker, then the payload
drive; a deserializer error propagates through `?`, a serializer error
returns `Ok(Err(_))` via `try_serializer!`.  With no item left, the pull
either fails (`pullFail`) or signals the end, and `try_serializer!(s.end())`
runs. -/
def seq_loop : List SValue → Option String → SerState → SerState × DriveResult
  | [], pf, st =>
    let st' := recordPull st .pullElement
    match pf with
    | some msg => (st', .error (DeError.custom msg))
    | none => let q := serCall st' .seqEnd; (q.1, .ok q.2)
  | e :: rest, pf, st =>
    let st' := recordPull st .pullElement
    let q := serCall st' .elementBegin
    match q.2 with
    | .error serErr => (q.1, .ok (.error serErr))
    | .ok _ =>
      match deserialize_any e q.1 with
      | (st₂, .error deErr) => (st₂, .error deErr)
      | (st₂, .ok (.error serErr)) => (st₂, .ok (.error serErr))
      | (st₂, .ok (.ok _)) => seq_loop rest pf st₂

/-- The `while let` loop of `visit_map` (lib.rs 334-339).  Each round
records the `next_key_seed` pull; with entries left, `KeySeed`'s
`deserialize` (lib.rs 376-380) forwards the key (`serialize_key(&tr)`
under `with_transcoder!`); only when the key's result is observed
successful is `next_value_seed` pulled and the value forwarded by
`ValueSeed` (lib.rs 390-394).  With no entry left, the pull either fails
(`pullFail`) or signals the end, and `try_serializer!(s.end())` runs. -/
def map_loop : List (SValue × SValue) → Option String → SerState → SerState × DriveResult
  | [], pf, st =>
    let st' := recordPull st .pullKey
    match pf with
    | some msg => (st', .error (DeError.custom msg))
    | none => let q := serCall st' .mapEnd; (q.1, .ok q.2)
  | (k, v) :: rest, pf, st =>
    let st' := recordPull st .pullKey
    let q := serCall st' .keyBegin
    match q.2 with
    | .error serErr => (q.1, .ok (.error serErr))
    | .ok _ =>
      match deserialize_any k q.1 with
      | (st₂, .error deErr) => (st₂, .error deErr)
      | (st₂, .ok (.error serErr)) => (st₂, .ok (.error serErr))
      | (st₂, .ok (.ok _)) =>
        let st₃ := recordPull st₂ .pullValue
        let q₂ := serCall st₃ .valueBegin
        match q₂.2 with
        | .error serErr => (q₂.1, .ok (.error serErr))
        | .ok _ =>
          match deserialize_any v q₂.1 with
          | (st₄, .error deErr) => (st₄, .error deErr)
          | (st₄, .ok (.error serErr)) => (st₄, .ok (.error serErr))
          | (st₄, .ok (.ok _)) => map_loop rest pf st₄

end

/-- The `Transcoder` of lib.rs 103-108: a `RefCell<Option<D>>` holding
the deserializer until the single permitted serialization takes it, and
a `RefCell<Option<D::Error>>` holding the last deserializer-side error. -/
structure Transcoder where
  de : Option SValue
  de_err : Option DeError

/-- Constructor `Transcoder::new` (lib.rs 114-119). -/
def Transcoder.new (sv : SValue) : Transcoder :=
  { de := some sv, de_err := none }

/-- Method `Transcoder::take_last_deserializer_error` (lib.rs 129-131):
`self.de_err.borrow_mut().take()` returns the stored error and leaves
`None` behind.  Returned as the taken value plus the updated state. -/
def Transcoder.take_last_deserializer_error (t : Transcoder) :
    Option DeError × Transcoder :=
  (t.de_err, { t with de_err := none })

/-- Method `serialize` of `impl Serialize for Transcoder` (lib.rs 137-155).  The
`.take().expect("Transcoder may only be serialized once")` is modelled by
the `Option` result: `none` is the panic on a drained transcoder.  On a
deserializer error the error is stored in `de_err` and
`ser::Error::custom` of its rendering is returned (lib.rs 149-153). -/
def Transcoder.serialize (t : Transcoder) (st : SerState) :
    Option (Transcoder × SerState × Except SerError Unit) :=
  match t.de with
  | none => none
  | some sv =>
    match deserialize_any sv st with
    | (st', .ok (.ok _)) => some ({ t with de := none }, st', .ok ())
    | (st', .ok (.error serErr)) => some ({ t with de := none }, st', .error serErr)
    | (st', .error deErr) =>
      some ({ t with de := none, de_err := some deErr }, st',
        .error (SerError.custom deErr.render))

/-- Expansion of the `with_transcoder!` macro (lib.rs 169-181) around a
sink call that drives its payload transcoder with the shared sink state:
build a fresh `Transcoder` over the nested deserializer, run the body,
then return the taken deserializer error if one was stored, else the
body's serializer-side result. -/
def with_transcoder (inner : SValue) (st : SerState) : SerState × DriveResult :=
  match Transcoder.serialize (Transcoder.new inner) st with
  | none => (st, .ok (.ok ()))
  | some (t', st', r) =>
    match (t'.take_last_deserializer_error).1 with
    | some deErr => (st', .error deErr)
    | none => (st', .ok r)

/-- The public error union `Error<D, S>` (lib.rs 64-73). -/
inductive Error where
  | deserializerError (e : DeError)
  | serializerError (e : SerError)
deriving DecidableEq, Repr

/-- The top-level `transcode` function (lib.rs 48-61): serialize a fresh
`Transcoder`, then consult `take_last_deserializer_error` first; a stored
deserializer error wins, otherwise the serializer result is tagged.  The
`Option.none` arm is unreachable: a freshly constructed transcoder never
panics. -/
def transcode (sv : SValue) (st : SerState) : SerState × Except Error Unit :=
  match Transcoder.serialize (Transcoder.new sv) st with
  | none => (st, .error (Error.deserializerError (DeError.custom "unreachable")))
  | some (t', st', result) =>
    match (t'.take_last_deserializer_error).1 with
    | some deErr => (st', .error (Error.deserializerError deErr))
    | none =>
      match result with
      | .ok v => (st', .ok v)
      | .error serErr => (st', .error (Error.serializerError serErr))

/-- The sink call emitted for a primitive shape, when the value is one:
the 1:1 dispatch table of the `Visitor` impl (lib.rs 192-300 and
342-352), covering booleans, every integer width, both float widths,
char, string, byte string, unit and the absent optional. -/
def primCall : SValue → Option SerCall
  | .vBool b => some (.sBool b)
  | .vI8 n => some (.sI8 n)
  | .vI16 n => some (.sI16 n)
  | .vI32 n => some (.sI32 n)
  | .vI64 n => some (.sI64 n)
  | .vI128 n => some (.sI128 n)
  | .vU8 n => some (.sU8 n)
  | .vU16 n => some (.sU16 n)
  | .vU32 n => some (.sU32 n)
  | .vU64 n => some (.sU64 n)
  | .vU128 n => some (.sU128 n)
  | .vF32 bits => some (.sF32 bits)
  | .vF64 bits => some (.sF64 bits)
  | .vChar c => some (.sChar c)
  | .vStr s => some (.sStr s)
  | .vBytes bs => some (.sBytes bs)
  | .vUnit => some .sUnit
  | .vNone => some .sNone
  | _ => none

/-- Decoding of the model sink's output back into a value: the inverse
reading of one primitive sink call, i.e. "format B's own decode" for the
canonical trace sink. -/
def decodePrim : SerCall → Option SValue
  | .sBool b => some (.vBool b)
  | .sI8 n => some (.vI8 n)
  | .sI16 n => some (.vI16 n)
  | .sI32 n => some (.vI32 n)
  | .sI64 n => some (.vI64 n)
  | .sI128 n => some (.vI128 n)
  | .sU8 n => some (.vU8 n)
  | .sU16 n => some (.vU16 n)
  | .sU32 n => some (.vU32 n)
  | .sU64 n => some (.vU64 n)
  | .sU128 n => some (.vU128 n)
  | .sF32 bits => some (.vF32 bits)
  | .sF64 bits => some (.vF64 bits)
  | .sChar c => some (.vChar c)
  | .sStr s => some (.vStr s)
  | .sBytes bs => some (.vBytes bs)
  | .sUnit => some .vUnit
  | .sNone => some .vNone
  | _ => none

/-- The empty sink: nothing received yet, no scripted failure. -/
def init0 : SerState := { trace := [], calls := 0, failAt := none }

/-- The sink call a primitive value contributes to the trace (none for
composite shapes; used only under a primitivity hypothesis). -/
def primEv (e : SValue) : List Event :=
  match primCall e with
  | some c => [Event.call c]
  | none => []

/-- The events produced by forwarding a list of primitive elements inside
a sequence: for each element, the pull, the sink's element marker, and
the element's own primitive call. -/
def elemTrace (es : List SValue) : List Event :=
  es.flatMap fun e =>
    [Event.pullElement, Event.call SerCall.elementBegin] ++ primEv e

/-- The events produced by forwarding a list of primitive key/value
entries inside a keyed collection: for each entry, the key pull, the
sink's key marker and the key's call, then the value pull, the sink's
value marker and the value's call. -/
def entryTrace (es : List (SValue × SValue)) : List Event :=
  es.flatMap fun kv =>
    [Event.pullKey, Event.call SerCall.keyBegin] ++ primEv kv.1 ++
      [Event.pullValue, Event.call SerCall.valueBegin] ++ primEv kv.2

/-- One key round of the `visit_map` loop, up to and including observing
the key's forwarding result: the `next_key_seed` pull, the sink's
`serialize_key` marker, and the key payload's drive under
`with_transcoder!` (lib.rs 334-335 together with 376-380). -/
def key_step (k : SValue) (st : SerState) : SerState × DriveResult :=
  let st' := recordPull st .pullKey
  let q := serCall st' .keyBegin
  match q.2 with
  | .error serErr => (q.1, .ok (.error serErr))
  | .ok _ => deserialize_any k q.1

/-- One value round of the `visit_map` loop: the `next_value_seed` pull,
the sink's `serialize_value` marker, and the value payload's drive under
`with_transcoder!` (lib.rs 336-337 together with 390-394). -/
def value_step (v : SValue) (st : SerState) : SerState × DriveResult :=
  let st' := recordPull st .pullValue
  let q := serCall st' .valueBegin
  match q.2 with
  | .error serErr => (q.1, .ok (.error serErr))
  | .ok _ => deserialize_any v q.1

/-- One element round of the `visit_seq` loop: the `next_element_seed`
pull, the sink's `serialize_element` marker, and the element payload's
drive under `with_transcoder!` (lib.rs 321-322 together with 362-366). -/
def elem_step (e : SValue) (st : SerState) : SerState × DriveResult :=
  let st' := recordPull st .pullElement
  let q := serCall st' .elementBegin
  match q.2 with
  | .error serErr => (q.1, .ok (.error serErr))
  | .ok _ => deserialize_any e q.1

/-! ## Helper lemmas -/

theorem serCall_fst (st : SerState) (c : SerCall) :
    (serCall st c).1 =
      { st with trace := st.trace ++ [Event.call c], calls := st.calls + 1 } := by
  simp only [serCall]
  split <;> rfl

theorem serCall_snd_of_no_fail (st : SerState) (c : SerCall) (h : st.failAt = none) :
    (serCall st c).2 = .ok () := by
  simp [serCall, h]

theorem serCall_snd_cases (st : SerState) (c : SerCall) :
    (serCall st c).2 = .ok () ∨
      (serCall st c).2 = .error (SerError.failed st.calls) := by
  simp only [serCall]
  split <;> simp

/-- State `st'` extends `st`: the trace of `st'` appends events to that of `st`. -/
def TraceExt (st st' : SerState) : Prop := ∃ t, st'.trace = st.trace ++ t

theorem TraceExt.rfl (st : SerState) : TraceExt st st := ⟨[], by simp⟩

theorem TraceExt.trans {a b c : SerState} (h₁ : TraceExt a b) (h₂ : TraceExt b c) :
    TraceExt a c := by
  obtain ⟨t₁, e₁⟩ := h₁
  obtain ⟨t₂, e₂⟩ := h₂
  exact ⟨t₁ ++ t₂, by simp [e₂, e₁]⟩

theorem TraceExt.of_serCall (st : SerState) (c : SerCall) :
    TraceExt st (serCall st c).1 := ⟨[Event.call c], by simp [serCall_fst]⟩

theorem TraceExt.of_recordPull (st : SerState) (e : Event) :
    TraceExt st (recordPull st e) := ⟨[e], by simp [recordPull]⟩

mutual

theorem deserialize_any_ext (sv : SValue) (st : SerState) :
    TraceExt st (deserialize_any sv st).1 := by
  cases sv with
  | vSome inner =>
    rw [deserialize_any]
    rcases h : (serCall st .sSome).2 with e | u
    · simp only [h]
      exact TraceExt.of_serCall st _
    · simp only [h]
      exact (TraceExt.of_serCall st _).trans (deserialize_any_ext inner _)
  | newtypeStruct name inner =>
    rw [deserialize_any]
    rcases h : (serCall st (.sNewtypeStruct "<unknown>")).2 with e | u
    · simp only [h]
      exact TraceExt.of_serCall st _
    · simp only [h]
      exact (TraceExt.of_serCall st _).trans (deserialize_any_ext inner _)
  | seq hint elems pf =>
    rw [deserialize_any]
    rcases h : (serCall st (.seqBegin hint)).2 with e | u
    · simp only [h]
      exact TraceExt.of_serCall st _
    · simp only [h]
      exact (TraceExt.of_serCall st _).trans (seq_loop_ext elems pf _)
  | map hint entries pf =>
    rw [deserialize_any]
    rcases h : (serCall st (.mapBegin hint)).2 with e | u
    · simp only [h]
      exact TraceExt.of_serCall st _
    · simp only [h]
      exact (TraceExt.of_serCall st _).trans (map_loop_ext entries pf _)
  | fail msg =>
    rw [deserialize_any]
    exact TraceExt.rfl st
  | vBool b => rw [deserialize_any]; exact TraceExt.of_serCall st _
  | vI8 n => rw [deserialize_any]; exact TraceExt.of_serCall st _
  | vI16 n => rw [deserialize_any]; exact TraceExt.of_serCall st _
  | vI32 n => rw [deserialize_any]; exact TraceExt.of_serCall st _
  | vI64 n => rw [deserialize_any]; exact TraceExt.of_serCall st _
  | vI128 n => rw [deserialize_any]; exact TraceExt.of_serCall st _
  | vU8 n => rw [deserialize_any]; exact TraceExt.of_serCall st _
  | vU16 n => rw [deserialize_any]; exact TraceExt.of_serCall st _
  | vU32 n => rw [deserialize_any]; exact TraceExt.of_serCall st _
  | vU64 n => rw [deserialize_any]; exact TraceExt.of_serCall st _
  | vU128 n => rw [deserialize_any]; exact TraceExt.of_serCall st _
  | vF32 bits => rw [deserialize_any]; exact TraceExt.of_serCall st _
  | vF64 bits => rw [deserialize_any]; exact TraceExt.of_serCall st _
  | vChar c => rw [deserialize_any]; exact TraceExt.of_serCall st _
  | vStr s => rw [deserialize_any]; exact TraceExt.of_serCall st _
  | vBytes bs => rw [deserialize_any]; exact TraceExt.of_serCall st _
  | vUnit => rw [deserialize_any]; exact TraceExt.of_serCall st _
  | vNone => rw [deserialize_any]; exact TraceExt.of_serCall st _

theorem seq_loop_ext (es : List SValue) (pf : Option String) (st : SerState) :
    TraceExt st (seq_loop es pf st).1 := by
  cases es with
  | nil =>
    rw [seq_loop.eq_def]
    dsimp only
    cases pf with
    | none =>
      exact (TraceExt.of_recordPull st _).trans (TraceExt.of_serCall _ _)
    | some msg =>
      exact TraceExt.of_recordPull st _
  | cons e rest =>
    rw [seq_loop.eq_def]
    dsimp only
    rcases h : (serCall (recordPull st .pullElement) .elementBegin).2 with er | u
    · simp only [h]
      exact (TraceExt.of_recordPull st _).trans (TraceExt.of_serCall _ _)
    · simp only [h]
      have h₀ : TraceExt st (serCall (recordPull st .pullElement) .elementBegin).1 :=
        (TraceExt.of_recordPull st _).trans (TraceExt.of_serCall _ _)
      rcases hd : deserialize_any e (serCall (recordPull st .pullElement) .elementBegin).1
        with ⟨st₂, res⟩
      have h₁ : TraceExt st st₂ := by
        have := deserialize_any_ext e (serCall (recordPull st .pullElement) .elementBegin).1
        rw [hd] at this
        exact h₀.trans this
      rcases res with de | r
      · exact h₁
      · rcases r with se | u
        · exact h₁
        · exact h₁.trans (seq_loop_ext rest pf st₂)

theorem map_loop_ext (es : List (SValue × SValue)) (pf : Option String) (st : SerState) :
    TraceExt st (map_loop es pf st).1 := by
  cases es with
  | nil =>
    rw [map_loop.eq_def]
    dsimp only
    cases pf with
    | none =>
      exact (TraceExt.of_recordPull st _).trans (TraceExt.of_serCall _ _)
    | some msg =>
      exact TraceExt.of_recordPull st _
  | cons kv rest =>
    rcases kv with ⟨k, v⟩
    rw [map_loop.eq_def]
    dsimp only
    rcases h : (serCall (recordPull st .pullKey) .keyBegin).2 with er | u
    · simp only [h]
      exact (TraceExt.of_recordPull st _).trans (TraceExt.of_serCall _ _)
    · simp only [h]
      have h₀ : TraceExt st (serCall (recordPull st .pullKey) .keyBegin).1 :=
        (TraceExt.of_recordPull st _).trans (TraceExt.of_serCall _ _)
      rcases hd : deserialize_any k (serCall (recordPull st .pullKey) .keyBegin).1
        with ⟨st₂, res⟩
      have h₁ : TraceExt st st₂ := by
        have := deserialize_any_ext k (serCall (recordPull st .pullKey) .keyBegin).1
        rw [hd] at this
        exact h₀.trans this
      rcases res with de | r
      · exact h₁
      · rcases r with se | u
        · exact h₁
        · rcases h₂ : (serCall (recordPull st₂ .pullValue) .valueBegin).2 with er | u
          · simp only [h₂]
            exact h₁.trans ((TraceExt.of_recordPull st₂ _).trans (TraceExt.of_serCall _ _))
          · simp only [h₂]
            have h₃ : TraceExt st₂ (serCall (recordPull st₂ .pullValue) .valueBegin).1 :=
              (TraceExt.of_recordPull st₂ _).trans (TraceExt.of_serCall _ _)
            rcases hv : deserialize_any v (serCall (recordPull st₂ .pullValue) .valueBegin).1
              with ⟨st₄, res₂⟩
            have h₄ : TraceExt st st₄ := by
              have := deserialize_any_ext v (serCall (recordPull st₂ .pullValue) .valueBegin).1
              rw [hv] at this
              exact h₁.trans (h₃.trans this)
            rcases res₂ with de | r₂
            · exact h₄
            · rcases r₂ with se | u
              · exact h₄
              · exact h₄.trans (map_loop_ext rest pf st₄)

end

/-- Macro `with_transcoder!` composed with the payload drive is exactly a
recursive `deserialize_any` on the nested value: the deserializer error
stored by `Transcoder::serialize` is taken out again and re-raised, and
serializer-side results pass through. -/
theorem with_transcoder_eq (inner : SValue) (st : SerState) :
    with_transcoder inner st = deserialize_any inner st := by
  rcases h : deserialize_any inner st with ⟨st', res⟩
  unfold with_transcoder Transcoder.serialize Transcoder.new
  dsimp only
  rw [h]
  rcases res with de | r
  · simp [Transcoder.take_last_deserializer_error]
  · rcases r with se | u <;> simp [Transcoder.take_last_deserializer_error]

/-- Primitive dispatch: a value whose shape is primitive is forwarded as
exactly one matching sink call, and the sink's result is the visitor's
serializer-side result, unchanged. -/
theorem deserialize_any_prim (sv : SValue) (c : SerCall) (st : SerState)
    (h : primCall sv = some c) :
    deserialize_any sv st = ((serCall st c).1, .ok (serCall st c).2) := by
  cases sv <;> simp only [primCall, Option.some.injEq, reduceCtorEq] at h <;>
    rw [← h] <;> rw [deserialize_any]

theorem serCall_snd_of_ne (st : SerState) (c : SerCall) (n : Nat)
    (h : st.failAt = some n) (hne : n ≠ st.calls) : (serCall st c).2 = .ok () := by
  simp [serCall, h, hne]

theorem serCall_snd_fail (st : SerState) (c : SerCall)
    (h : st.failAt = some st.calls) :
    (serCall st c).2 = .error (SerError.failed st.calls) := by
  simp [serCall, h]

/-- Running the `visit_seq` loop over primitive elements with a sink that
never fails, against a source whose pull fails after the last element:
every element is pulled and appended, the failing pull ends the loop with
the deserializer error, and `end` is never reached. -/
theorem seq_loop_clean (es : List SValue) (msg : String) (st : SerState)
    (hp : ∀ e ∈ es, (primCall e).isSome) (hf : st.failAt = none) :
    seq_loop es (some msg) st =
      ({ st with
          trace := st.trace ++ (elemTrace es ++ [Event.pullElement]),
          calls := st.calls + 2 * es.length },
        Except.error (DeError.custom msg)) := by
  induction es generalizing st with
  | nil =>
    rw [seq_loop.eq_def]
    simp [recordPull, elemTrace]
  | cons e rest ih =>
    obtain ⟨c, hc⟩ := Option.isSome_iff_exists.mp (hp e (List.mem_cons_self e rest))
    rw [seq_loop.eq_def]
    dsimp only
    have h1 : (serCall (recordPull st .pullElement) .elementBegin).2 = .ok () :=
      serCall_snd_of_no_fail _ _ (by simp [recordPull, hf])
    rw [h1]
    dsimp only
    rw [deserialize_any_prim e c _ hc]
    have h2 : (serCall (serCall (recordPull st .pullElement) .elementBegin).1 c).2 =
        .ok () :=
      serCall_snd_of_no_fail _ _ (by simp [serCall_fst, recordPull, hf])
    rw [h2]
    dsimp only
    rw [ih _ (fun x hx => hp x (List.mem_cons_of_mem e hx))
      (by simp [serCall_fst, recordPull, hf])]
    simp only [serCall_fst, recordPull, elemTrace, primEv, hc, List.flatMap_cons]
    refine Prod.ext ?_ rfl
    simp only []
    refine (SerState.mk.injEq _ _ _ _ _ _).mpr ⟨?_, ?_, rfl⟩
    · simp [elemTrace]
    · simp only [List.length_cons]
      omega

/-- Running the `visit_seq` loop over primitive elements with a sink
scripted to fail at the element-append of element `i`: the first `i`
elements are forwarded, the failing `serialize_element` call aborts the
loop with the serializer error, and `end` is never reached. -/
theorem seq_loop_sink_fail (es : List SValue) (i : Nat) (pf : Option String)
    (st : SerState) (hp : ∀ e ∈ es, (primCall e).isSome) (hi : i < es.length)
    (hf : st.failAt = some (st.calls + 2 * i)) :
    seq_loop es pf st =
      ({ st with
          trace := st.trace ++ (elemTrace (es.take i) ++
            [Event.pullElement, Event.call SerCall.elementBegin]),
          calls := st.calls + 2 * i + 1 },
        Except.ok (Except.error (SerError.failed (st.calls + 2 * i)))) := by
  induction es generalizing st i with
  | nil => simp at hi
  | cons e rest ih =>
    cases i with
    | zero =>
      rw [seq_loop.eq_def]
      dsimp only
      have h1 : (serCall (recordPull st .pullElement) .elementBegin).2 =
          .error (SerError.failed st.calls) := by
        have hx := serCall_snd_fail (recordPull st .pullElement) SerCall.elementBegin
          (by simp [recordPull, hf])
        simpa [recordPull] using hx
      rw [h1]
      simp [serCall_fst, recordPull, elemTrace]
    | succ j =>
      obtain ⟨c, hc⟩ := Option.isSome_iff_exists.mp (hp e (List.mem_cons_self e rest))
      rw [seq_loop.eq_def]
      dsimp only
      have h1 : (serCall (recordPull st .pullElement) .elementBegin).2 = .ok () :=
        serCall_snd_of_ne _ _ (st.calls + 2 * (j + 1))
          (by simp [recordPull, hf]) (by simp [recordPull])
      rw [h1]
      dsimp only
      rw [deserialize_any_prim e c _ hc]
      have h2 : (serCall (serCall (recordPull st .pullElement) .elementBegin).1 c).2 =
          .ok () :=
        serCall_snd_of_ne _ _ (st.calls + 2 * (j + 1))
          (by simp [serCall_fst, recordPull, hf])
          (by simp [serCall_fst, recordPull])
      rw [h2]
      dsimp only
      rw [ih j _ (fun x hx => hp x (List.mem_cons_of_mem e hx))
        (Nat.lt_of_succ_lt_succ hi)
        (by simp [serCall_fst, recordPull, hf]; omega)]
      simp only [serCall_fst, recordPull, List.take_succ_cons, elemTrace, primEv, hc,
        List.flatMap_cons]
      refine Prod.ext ?_ ?_
      · simp only []
        refine (SerState.mk.injEq _ _ _ _ _ _).mpr ⟨?_, ?_, rfl⟩
        · simp [elemTrace]
        · omega
      · simp only [Except.ok.injEq, Except.error.injEq, SerError.failed.injEq]
        omega

/-- Running the `visit_map` loop over primitive entries with a sink that
never fails, against a source whose key pull fails after the last entry:
every entry is forwarded key-then-value, the failing pull ends the loop
with the deserializer error, and `end` is never reached. -/
theorem map_loop_clean (es : List (SValue × SValue)) (msg : String) (st : SerState)
    (hp : ∀ kv ∈ es, (primCall kv.1).isSome ∧ (primCall kv.2).isSome)
    (hf : st.failAt = none) :
    map_loop es (some msg) st =
      ({ st with
          trace := st.trace ++ (entryTrace es ++ [Event.pullKey]),
          calls := st.calls + 4 * es.length },
        Except.error (DeError.custom msg)) := by
  induction es generalizing st with
  | nil =>
    rw [map_loop.eq_def]
    simp [recordPull, entryTrace]
  | cons kv rest ih =>
    obtain ⟨hpk, hpv⟩ := hp kv (List.mem_cons_self kv rest)
    obtain ⟨ck, hck⟩ := Option.isSome_iff_exists.mp hpk
    obtain ⟨cv, hcv⟩ := Option.isSome_iff_exists.mp hpv
    rcases kv with ⟨k, v⟩
    rw [map_loop.eq_def]
    dsimp only
    have h1 : (serCall (recordPull st .pullKey) .keyBegin).2 = .ok () :=
      serCall_snd_of_no_fail _ _ (by simp [recordPull, hf])
    rw [h1]
    dsimp only
    rw [deserialize_any_prim k ck _ hck]
    have h2 : (serCall (serCall (recordPull st .pullKey) .keyBegin).1 ck).2 = .ok () :=
      serCall_snd_of_no_fail _ _ (by simp [serCall_fst, recordPull, hf])
    rw [h2]
    dsimp only
    have h3 : (serCall (recordPull
        (serCall (serCall (recordPull st .pullKey) .keyBegin).1 ck).1 .pullValue)
          .valueBegin).2 = .ok () :=
      serCall_snd_of_no_fail _ _ (by simp [serCall_fst, recordPull, hf])
    rw [h3]
    dsimp only
    rw [deserialize_any_prim v cv _ hcv]
    have h4 : (serCall (serCall (recordPull
        (serCall (serCall (recordPull st .pullKey) .keyBegin).1 ck).1 .pullValue)
          .valueBegin).1 cv).2 = .ok () :=
      serCall_snd_of_no_fail _ _ (by simp [serCall_fst, recordPull, hf])
    rw [h4]
    dsimp only
    rw [ih _ (fun x hx => hp x (List.mem_cons_of_mem _ hx))
      (by simp [serCall_fst, recordPull, hf])]
    simp only [serCall_fst, recordPull, entryTrace, primEv, hck, hcv, List.flatMap_cons]
    refine Prod.ext ?_ rfl
    simp only []
    refine (SerState.mk.injEq _ _ _ _ _ _).mpr ⟨?_, ?_, rfl⟩
    · simp [entryTrace]
    · simp only [List.length_cons]
      omega

/-- One round of the `visit_seq` loop expressed through `elem_step`:
the loop runs one element round, aborts in the round's own final state
on either error, and continues only on observed success. -/
theorem seq_loop_cons (e : SValue) (rest : List SValue) (pf : Option String)
    (st : SerState) :
    seq_loop (e :: rest) pf st =
      (match elem_step e st with
       | (st₂, .error de) => (st₂, Except.error de)
       | (st₂, .ok (.error se)) => (st₂, Except.ok (Except.error se))
       | (st₂, .ok (.ok _)) => seq_loop rest pf st₂) := by
  rw [seq_loop.eq_def]
  unfold elem_step
  dsimp only
  rcases h : (serCall (recordPull st .pullElement) .elementBegin).2 with er | u
  · rfl
  · rcases hd : deserialize_any e (serCall (recordPull st .pullElement) .elementBegin).1
      with ⟨st₂, res⟩
    rcases res with de | r
    · rfl
    · rcases r with se | uu <;> rfl

/-- One round of the `visit_map` loop expressed through `key_step` and
`value_step`: the loop runs the key round, aborts in its final state on
either error; on key success it runs the value round, aborts in its
final state on either error; only full success continues the loop. -/
theorem map_loop_cons (k v : SValue) (rest : List (SValue × SValue))
    (pf : Option String) (st : SerState) :
    map_loop ((k, v) :: rest) pf st =
      (match key_step k st with
       | (st₂, .error de) => (st₂, Except.error de)
       | (st₂, .ok (.error se)) => (st₂, Except.ok (Except.error se))
       | (st₂, .ok (.ok _)) =>
         match value_step v st₂ with
         | (st₄, .error de) => (st₄, Except.error de)
         | (st₄, .ok (.error se)) => (st₄, Except.ok (Except.error se))
         | (st₄, .ok (.ok _)) => map_loop rest pf st₄) := by
  rw [map_loop.eq_def]
  unfold key_step value_step
  dsimp only
  rcases h : (serCall (recordPull st .pullKey) .keyBegin).2 with er | u
  · rfl
  · rcases hd : deserialize_any k (serCall (recordPull st .pullKey) .keyBegin).1
      with ⟨st₂, res⟩
    rcases res with de | r
    · rfl
    · rcases r with se | uu
      · rfl
      · rcases h₂ : (serCall (recordPull st₂ .pullValue) .valueBegin).2 with er | u₂ <;>
          simp only [h₂]

/-- Running the `visit_map` loop over primitive entries with a sink
scripted to fail at the key-append of entry `i`: the first `i` entries
are forwarded in full, the failing `serialize_key` call aborts the loop
with the serializer error, and `end` is never reached. -/
theorem map_loop_sink_fail (es : List (SValue × SValue)) (i : Nat)
    (pf : Option String) (st : SerState)
    (hp : ∀ kv ∈ es, (primCall kv.1).isSome ∧ (primCall kv.2).isSome)
    (hi : i < es.length) (hf : st.failAt = some (st.calls + 4 * i)) :
    map_loop es pf st =
      ({ st with
          trace := st.trace ++ (entryTrace (es.take i) ++
            [Event.pullKey, Event.call SerCall.keyBegin]),
          calls := st.calls + 4 * i + 1 },
        Except.ok (Except.error (SerError.failed (st.calls + 4 * i)))) := by
  induction es generalizing st i with
  | nil => simp at hi
  | cons kv rest ih =>
    cases i with
    | zero =>
      rw [map_loop.eq_def]
      dsimp only
      have h1 : (serCall (recordPull st .pullKey) .keyBegin).2 =
          .error (SerError.failed st.calls) := by
        have hx := serCall_snd_fail (recordPull st .pullKey) SerCall.keyBegin
          (by simp [recordPull, hf])
        simpa [recordPull] using hx
      rw [h1]
      simp [serCall_fst, recordPull, entryTrace]
    | succ j =>
      obtain ⟨hpk, hpv⟩ := hp kv (List.mem_cons_self kv rest)
      obtain ⟨ck, hck⟩ := Option.isSome_iff_exists.mp hpk
      obtain ⟨cv, hcv⟩ := Option.isSome_iff_exists.mp hpv
      rcases kv with ⟨k, v⟩
      rw [map_loop.eq_def]
      dsimp only
      have h1 : (serCall (recordPull st .pullKey) .keyBegin).2 = .ok () :=
        serCall_snd_of_ne _ _ (st.calls + 4 * (j + 1))
          (by simp [recordPull, hf]) (by simp [recordPull])
      rw [h1]
      dsimp only
      rw [deserialize_any_prim k ck _ hck]
      have h2 : (serCall (serCall (recordPull st .pullKey) .keyBegin).1 ck).2 =
          .ok () :=
        serCall_snd_of_ne _ _ (st.calls + 4 * (j + 1))
          (by simp [serCall_fst, recordPull, hf])
          (by simp [serCall_fst, recordPull])
      rw [h2]
      dsimp only
      have h3 : (serCall (recordPull
          (serCall (serCall (recordPull st .pullKey) .keyBegin).1 ck).1 .pullValue)
            .valueBegin).2 = .ok () :=
        serCall_snd_of_ne _ _ (st.calls + 4 * (j + 1))
          (by simp [serCall_fst, recordPull, hf])
          (by simp [serCall_fst, recordPull]; omega)
      rw [h3]
      dsimp only
      rw [deserialize_any_prim v cv _ hcv]
      have h4 : (serCall (serCall (recordPull
          (serCall (serCall (recordPull st .pullKey) .keyBegin).1 ck).1 .pullValue)
            .valueBegin).1 cv).2 = .ok () :=
        serCall_snd_of_ne _ _ (st.calls + 4 * (j + 1))
          (by simp [serCall_fst, recordPull, hf])
          (by simp [serCall_fst, recordPull]; omega)
      rw [h4]
      dsimp only
      rw [ih j _ (fun x hx => hp x (List.mem_cons_of_mem _ hx))
        (Nat.lt_of_succ_lt_succ hi)
        (by simp [serCall_fst, recordPull, hf]; omega)]
      simp only [serCall_fst, recordPull, List.take_succ_cons, entryTrace, primEv,
        hck, hcv, List.flatMap_cons]
      refine Prod.ext ?_ ?_
      · simp only []
        refine (SerState.mk.injEq _ _ _ _ _ _).mpr ⟨?_, ?_, rfl⟩
        · simp [entryTrace]
        · omega
      · simp only [Except.ok.injEq, Except.error.injEq, SerError.failed.injEq]
        omega

/-- The whole of `transcode` expressed through the drive result: final
sink state unchanged in form, deserializer errors win and are tagged as
`deserializerError`, serializer errors are tagged as `serializerError`. -/
theorem transcode_spec (sv : SValue) (st : SerState) :
    transcode sv st =
      ((deserialize_any sv st).1,
        match (deserialize_any sv st).2 with
        | .error e => Except.error (Error.deserializerError e)
        | .ok (.error e) => Except.error (Error.serializerError e)
        | .ok (.ok _) => Except.ok ()) := by
  rcases hda : deserialize_any sv st with ⟨stx, res⟩
  unfold transcode Transcoder.serialize Transcoder.new
  dsimp only
  rw [hda]
  rcases res with de | r
  · simp [Transcoder.take_last_deserializer_error]
  · rcases r with se | u <;> simp [Transcoder.take_last_deserializer_error]

/-! ## Claim theorems -/

/-- C1: a `Transcoder` is drained at most once.  Whenever a
`Transcoder::serialize` invocation completes (returning `some`), every
further `serialize` invocation on the resulting transcoder state is the
modelled panic (`none`) of the
`.expect("Transcoder may only be serialized once")` on lib.rs 144: it
fails deterministically instead of re-driving the exhausted deserializer
or producing output. -/
theorem transcoder_serialize_at_most_once
    (t t' : Transcoder) (st st' : SerState) (r : Except SerError Unit)
    (h : Transcoder.serialize t st = some (t', st', r)) (st₂ : SerState) :
    Transcoder.serialize t' st₂ = none := by
  have hde : t'.de = none := by
    unfold Transcoder.serialize at h
    rcases hd : t.de with _ | sv
    · rw [hd] at h; exact absurd h (by simp)
    · rw [hd] at h
      dsimp only at h
      rcases hda : deserialize_any sv st with ⟨stx, res⟩
      rw [hda] at h
      rcases res with de | rr
      · simp only [Option.some.injEq, Prod.mk.injEq] at h
        rw [← h.1]
      · rcases rr with se | u <;>
          simp only [Option.some.injEq, Prod.mk.injEq] at h <;> rw [← h.1]
  unfold Transcoder.serialize
  rw [hde]

/-- C1 witness: draining a fresh transcoder over `()` once succeeds, and
the drained transcoder then fails the modelled panic way. -/
theorem transcoder_serialize_at_most_once_witness :
    Transcoder.serialize { de := none, de_err := none } init0 = none := by
  refine transcoder_serialize_at_most_once (Transcoder.new SValue.vUnit)
    { de := none, de_err := none } init0
    { trace := [Event.call SerCall.sUnit], calls := 1, failAt := none }
    (Except.ok ()) ?_ init0
  unfold Transcoder.serialize Transcoder.new
  dsimp only
  rw [deserialize_any]
  simp [serCall, init0]

/-- C10: `take_last_deserializer_error` removes the stored error: if it
returns `some e`, an immediately following call on the resulting state
returns `none`.  The operation is a total function of the model (a plain
`RefCell::take`), so it cannot panic in any transcoder state. -/
theorem take_last_deserializer_error_removes (t : Transcoder) (e : DeError)
    (h : (t.take_last_deserializer_error).1 = some e) :
    ((t.take_last_deserializer_error).2.take_last_deserializer_error).1 = none := by
  simp [Transcoder.take_last_deserializer_error]

/-- C10 witness: taking a stored error once, then again, yields `none`. -/
theorem take_last_deserializer_error_removes_witness :
    ((Transcoder.take_last_deserializer_error
        { de := none, de_err := some (DeError.custom "x") }).2.take_last_deserializer_error).1 =
      none :=
  take_last_deserializer_error_removes
    { de := none, de_err := some (DeError.custom "x") } (DeError.custom "x") rfl

/-- C3: when the deserializer fails while a `Transcoder` is being
serialized, `Transcoder::serialize` stores the deserializer error and
returns, to the sink-facing caller of that recursion frame, exactly the
sink-domain error built by `ser::Error::custom` from the deserializer
error's rendered text (lib.rs 149-153). -/
theorem serialize_converts_de_error (t : Transcoder) (sv : SValue)
    (st : SerState) (e : DeError) (hde : t.de = some sv)
    (h : (deserialize_any sv st).2 = Except.error e) :
    Transcoder.serialize t st =
      some ({ t with de := none, de_err := some e }, (deserialize_any sv st).1,
        Except.error (SerError.custom e.render)) := by
  unfold Transcoder.serialize
  rw [hde]
  dsimp only
  rcases hda : deserialize_any sv st with ⟨stx, res⟩
  rw [hda] at h
  simp only at h
  subst h
  simp

/-- C3 witness: a deserializer failing with message "boom" surfaces from
`serialize` as the sink-domain custom error with the same text, and is
stored for `take_last_deserializer_error`. -/
theorem serialize_converts_de_error_witness :
    Transcoder.serialize (Transcoder.new (SValue.fail "boom")) init0 =
      some ({ de := none, de_err := some (DeError.custom "boom") }, init0,
        Except.error (SerError.custom "boom")) := by
  have h := serialize_converts_de_error (Transcoder.new (SValue.fail "boom"))
    (SValue.fail "boom") init0 (DeError.custom "boom") rfl (by rw [deserialize_any])
  rw [deserialize_any] at h
  simpa [Transcoder.new, DeError.render] using h

/-- C4: the top-level caller of `transcode` receives exactly one tagged
error identifying the failing side: a deserializer-side failure surfaces
as `DeserializerError` carrying the original deserializer error (even
though it crossed the serializer-typed return of `Transcoder::serialize`),
a serializer-side failure as `SerializerError`, and a clean run as the
sink's output. -/
theorem transcode_error_tags (sv : SValue) (st : SerState) :
    (∀ e : DeError, (deserialize_any sv st).2 = Except.error e →
      (transcode sv st).2 = Except.error (Error.deserializerError e)) ∧
    (∀ e : SerError, (deserialize_any sv st).2 = Except.ok (Except.error e) →
      (transcode sv st).2 = Except.error (Error.serializerError e)) ∧
    ((deserialize_any sv st).2 = Except.ok (Except.ok ()) →
      (transcode sv st).2 = Except.ok ()) := by
  refine ⟨?_, ?_, ?_⟩
  · intro e h
    rw [transcode_spec]
    simp [h]
  · intro e h
    rw [transcode_spec]
    simp [h]
  · intro h
    rw [transcode_spec]
    simp [h]

/-- C4 witness: a failing source is tagged `DeserializerError` carrying
its original error, a failing sink is tagged `SerializerError`, and a
clean transcode returns the sink output. -/
theorem transcode_error_tags_witness :
    (transcode (SValue.fail "bad") init0).2 =
        Except.error (Error.deserializerError (DeError.custom "bad")) ∧
    (transcode (SValue.vBool true) { trace := [], calls := 0, failAt := some 0 }).2 =
        Except.error (Error.serializerError (SerError.failed 0)) ∧
    (transcode SValue.vUnit init0).2 = Except.ok () := by
  refine ⟨(transcode_error_tags _ _).1 _ ?_, (transcode_error_tags _ _).2.1 _ ?_,
    (transcode_error_tags _ _).2.2 ?_⟩
  · rw [deserialize_any]
  · rw [deserialize_any]; simp [serCall]
  · rw [deserialize_any]; simp [serCall, init0]

/-- C7: for every primitive shape reported by the source (`primCall`
covers booleans, all integer widths with the 128-bit ones, both float
widths, char, string, byte string, unit and the absent optional), the
driver makes exactly one sink call — the matching primitive-encode call
with the same value — and the sink's success or error is the visitor's
serializer-side result, unchanged. -/
theorem visitor_primitive_one_to_one (sv : SValue) (c : SerCall)
    (st : SerState) (h : primCall sv = some c) :
    deserialize_any sv st =
      ({ st with trace := st.trace ++ [Event.call c], calls := st.calls + 1 },
        Except.ok (serCall st c).2) := by
  rw [deserialize_any_prim sv c st h, serCall_fst]

/-- C7 witness: the absent optional maps to exactly one `serialize_none`
call whose success is propagated. -/
theorem visitor_primitive_one_to_one_witness :
    deserialize_any SValue.vNone init0 =
      ({ trace := [Event.call SerCall.sNone], calls := 1, failAt := none },
        Except.ok (Except.ok ())) := by
  have h := visitor_primitive_one_to_one SValue.vNone SerCall.sNone init0 rfl
  simpa [init0, serCall] using h

/-- C2: round trip per primitive kind.  Transcoding a primitive value
into a fresh sink emits exactly its matching call, and the sink's own
decode of that output returns a value equal to the input. -/
theorem primitive_roundtrip (sv : SValue) (c : SerCall)
    (h : primCall sv = some c) :
    (deserialize_any sv init0).1.trace = [Event.call c] ∧
      decodePrim c = some sv := by
  constructor
  · rw [deserialize_any_prim sv c init0 h, serCall_fst]
    simp [init0]
  · cases sv <;> simp only [primCall, Option.some.injEq, reduceCtorEq] at h <;>
      rw [← h] <;> rfl

/-- C2 witness: the round trip at boundary inputs — `i8` minimum, `i64`
minimum, `u64` maximum, a large-magnitude float bit pattern, the null
character, the empty string, and a boolean. -/
theorem primitive_roundtrip_witness :
    ((deserialize_any (SValue.vI8 (-128)) init0).1.trace =
        [Event.call (SerCall.sI8 (-128))] ∧
      decodePrim (SerCall.sI8 (-128)) = some (SValue.vI8 (-128))) ∧
    ((deserialize_any (SValue.vI64 (-9223372036854775808)) init0).1.trace =
        [Event.call (SerCall.sI64 (-9223372036854775808))] ∧
      decodePrim (SerCall.sI64 (-9223372036854775808)) =
        some (SValue.vI64 (-9223372036854775808))) ∧
    ((deserialize_any (SValue.vU64 18446744073709551615) init0).1.trace =
        [Event.call (SerCall.sU64 18446744073709551615)] ∧
      decodePrim (SerCall.sU64 18446744073709551615) =
        some (SValue.vU64 18446744073709551615)) ∧
    ((deserialize_any (SValue.vF64 18442240474082181119) init0).1.trace =
        [Event.call (SerCall.sF64 18442240474082181119)] ∧
      decodePrim (SerCall.sF64 18442240474082181119) =
        some (SValue.vF64 18442240474082181119)) ∧
    ((deserialize_any (SValue.vChar (Char.ofNat 0)) init0).1.trace =
        [Event.call (SerCall.sChar (Char.ofNat 0))] ∧
      decodePrim (SerCall.sChar (Char.ofNat 0)) =
        some (SValue.vChar (Char.ofNat 0))) ∧
    ((deserialize_any (SValue.vStr "") init0).1.trace =
        [Event.call (SerCall.sStr "")] ∧
      decodePrim (SerCall.sStr "") = some (SValue.vStr "")) ∧
    ((deserialize_any (SValue.vBool true) init0).1.trace =
        [Event.call (SerCall.sBool true)] ∧
      decodePrim (SerCall.sBool true) = some (SValue.vBool true)) :=
  ⟨primitive_roundtrip _ _ rfl, primitive_roundtrip _ _ rfl,
    primitive_roundtrip _ _ rfl, primitive_roundtrip _ _ rfl,
    primitive_roundtrip _ _ rfl, primitive_roundtrip _ _ rfl,
    primitive_roundtrip _ _ rfl⟩

/-- C9: forwarding a single-field wrapper sends the sink a
`serialize_newtype_struct` call whose name is the fixed placeholder
`"<unknown>"` — independent of the original wrapper name in the source
document — together with the drive of a fresh `Transcoder` over the
nested source (`with_transcoder` builds `Transcoder.new inner` and
serializes it) as its payload. -/
theorem newtype_struct_placeholder_name (name : String) (inner : SValue)
    (st : SerState) :
    deserialize_any (SValue.newtypeStruct name inner) st =
      (match (serCall st (SerCall.sNewtypeStruct "<unknown>")).2 with
       | .error e =>
         ((serCall st (SerCall.sNewtypeStruct "<unknown>")).1, .ok (.error e))
       | .ok _ =>
         with_transcoder inner (serCall st (SerCall.sNewtypeStruct "<unknown>")).1) := by
  rw [deserialize_any]
  rcases h : (serCall st (SerCall.sNewtypeStruct "<unknown>")).2 with e | u
  · simp [h]
  · simp [h, with_transcoder_eq]

/-- C8: the source's element-count hint — absent, zero, or any positive
count — is passed through unchanged as the argument of the sink's
composite-begin call, for sequences and keyed collections alike: the
first event recorded is `serialize_seq hint` resp. `serialize_map hint`
with the very hint the source reported. -/
theorem composite_size_hint_passthrough (hint : Option Nat)
    (elems : List SValue) (entries : List (SValue × SValue))
    (pf pg : Option String) (st : SerState) :
    (∃ t, (deserialize_any (SValue.seq hint elems pf) st).1.trace =
        st.trace ++ Event.call (SerCall.seqBegin hint) :: t) ∧
    (∃ t, (deserialize_any (SValue.map hint entries pg) st).1.trace =
        st.trace ++ Event.call (SerCall.mapBegin hint) :: t) := by
  constructor
  · rw [deserialize_any]
    rcases h : (serCall st (SerCall.seqBegin hint)).2 with e | u
    · simp only [h]
      exact ⟨[], by simp [serCall_fst]⟩
    · simp only [h]
      obtain ⟨t, ht⟩ := seq_loop_ext elems pf (serCall st (SerCall.seqBegin hint)).1
      refine ⟨t, ?_⟩
      rw [ht, serCall_fst]
      simp
  · rw [deserialize_any]
    rcases h : (serCall st (SerCall.mapBegin hint)).2 with e | u
    · simp only [h]
      exact ⟨[], by simp [serCall_fst]⟩
    · simp only [h]
      obtain ⟨t, ht⟩ := map_loop_ext entries pg (serCall st (SerCall.mapBegin hint)).1
      refine ⟨t, ?_⟩
      rw [ht, serCall_fst]
      simp

/-- C5: in keyed-collection forwarding, the key of a pair is fully
forwarded and its result observed before the paired value is requested:
if the key round (`key_step`) does not end in observed success, the whole
map processing stops in exactly the key round's final state — in
particular the trace contains no pull of the paired value; if the key
round succeeds, the very next recorded event is `pullValue`, the request
of the paired value from the source. -/
theorem map_key_before_value (k v : SValue) (rest : List (SValue × SValue))
    (pf : Option String) (st : SerState) :
    (∀ e : DeError, (key_step k st).2 = Except.error e →
        map_loop ((k, v) :: rest) pf st = ((key_step k st).1, Except.error e)) ∧
    (∀ e : SerError, (key_step k st).2 = Except.ok (Except.error e) →
        map_loop ((k, v) :: rest) pf st =
          ((key_step k st).1, Except.ok (Except.error e))) ∧
    ((key_step k st).2 = Except.ok (Except.ok ()) →
      ∃ t, (map_loop ((k, v) :: rest) pf st).1.trace =
        (key_step k st).1.trace ++ Event.pullValue :: t) := by
  rcases h : (serCall (recordPull st .pullKey) .keyBegin).2 with er | u
  · have hks : key_step k st =
        ((serCall (recordPull st .pullKey) .keyBegin).1,
          Except.ok (Except.error er)) := by
      unfold key_step
      dsimp only
      rw [h]
    have hml : map_loop ((k, v) :: rest) pf st =
        ((serCall (recordPull st .pullKey) .keyBegin).1,
          Except.ok (Except.error er)) := by
      rw [map_loop.eq_def]
      dsimp only
      rw [h]
    rw [hks, hml]
    refine ⟨?_, ?_, ?_⟩
    · intro e he
      exact absurd he (by simp)
    · intro e he
      simp only [Except.ok.injEq, Except.error.injEq] at he
      rw [he]
    · intro he
      exact absurd he (by simp)
  · rcases hd : deserialize_any k (serCall (recordPull st .pullKey) .keyBegin).1
      with ⟨st₂, res⟩
    have hks : key_step k st = (st₂, res) := by
      unfold key_step
      dsimp only
      rw [h]
      exact hd
    rcases res with de | r
    · have hml : map_loop ((k, v) :: rest) pf st = (st₂, Except.error de) := by
        rw [map_loop.eq_def]
        dsimp only
        rw [h]
        dsimp only
        rw [hd]
      rw [hks, hml]
      refine ⟨?_, ?_, ?_⟩
      · intro e he
        simp only [Except.error.injEq] at he
        rw [he]
      · intro e he
        exact absurd he (by simp)
      · intro he
        exact absurd he (by simp)
    · rcases r with se | uu
      · have hml : map_loop ((k, v) :: rest) pf st =
            (st₂, Except.ok (Except.error se)) := by
          rw [map_loop.eq_def]
          dsimp only
          rw [h]
          dsimp only
          rw [hd]
        rw [hks, hml]
        refine ⟨?_, ?_, ?_⟩
        · intro e he
          exact absurd he (by simp)
        · intro e he
          simp only [Except.ok.injEq, Except.error.injEq] at he
          rw [he]
        · intro he
          exact absurd he (by simp)
      · have hml : map_loop ((k, v) :: rest) pf st =
            (match (serCall (recordPull st₂ .pullValue) .valueBegin).2 with
             | .error serErr =>
               ((serCall (recordPull st₂ .pullValue) .valueBegin).1,
                 Except.ok (Except.error serErr))
             | .ok _ =>
               match deserialize_any v
                   (serCall (recordPull st₂ .pullValue) .valueBegin).1 with
               | (st₄, .error deErr) => (st₄, Except.error deErr)
               | (st₄, .ok (.error serErr)) => (st₄, Except.ok (Except.error serErr))
               | (st₄, .ok (.ok _)) => map_loop rest pf st₄) := by
          rw [map_loop.eq_def]
          dsimp only
          rw [h]
          dsimp only
          rw [hd]
        rw [hks, hml]
        refine ⟨?_, ?_, ?_⟩
        · intro e he
          exact absurd he (by simp)
        · intro e he
          exact absurd he (by simp)
        · intro _
          have hbase :
              (serCall (recordPull st₂ .pullValue) .valueBegin).1.trace =
                st₂.trace ++ Event.pullValue :: [Event.call SerCall.valueBegin] := by
            rw [serCall_fst]
            simp [recordPull]
          rcases h₂ : (serCall (recordPull st₂ .pullValue) .valueBegin).2 with er | u₂
          · refine ⟨[Event.call SerCall.valueBegin], ?_⟩
            exact hbase
          · rcases hv : deserialize_any v
                (serCall (recordPull st₂ .pullValue) .valueBegin).1
              with ⟨st₅, res₂⟩
            have hext : TraceExt (serCall (recordPull st₂ .pullValue) .valueBegin).1 st₅ := by
              have hx := deserialize_any_ext v
                (serCall (recordPull st₂ .pullValue) .valueBegin).1
              rw [hv] at hx
              exact hx
            obtain ⟨t, ht⟩ := hext
            rcases res₂ with de | r₂
            · refine ⟨[Event.call SerCall.valueBegin] ++ t, ?_⟩
              rw [ht, hbase]
              simp
            · rcases r₂ with se | u₃
              · refine ⟨[Event.call SerCall.valueBegin] ++ t, ?_⟩
                rw [ht, hbase]
                simp
              · obtain ⟨t₂, ht₂⟩ := map_loop_ext rest pf st₅
                refine ⟨[Event.call SerCall.valueBegin] ++ t ++ t₂, ?_⟩
                rw [ht₂, ht, hbase]
                simp

/-- C5 witness: with a primitive key that forwards successfully, the
event right after the key round is the pull of the paired value. -/
theorem map_key_before_value_witness :
    ∃ t, (map_loop [(SValue.vStr "k", SValue.vUnit)] none init0).1.trace =
      (key_step (SValue.vStr "k") init0).1.trace ++ Event.pullValue :: t := by
  refine (map_key_before_value (SValue.vStr "k") SValue.vUnit [] none init0).2.2 ?_
  rw [key_step.eq_def]
  dsimp only
  rw [deserialize_any]
  simp [serCall, recordPull, init0]

/-- C6: the first error from either side aborts composite forwarding at
once, for sequences and keyed collections alike and for arbitrary
(also composite) items.  General clauses, via the per-round step
functions: a source- or sink-side failure of an element round ends
`visit_seq` in exactly that round's final state; a failure of the key
round or of the value round ends `visit_map` in exactly that round's
final state — so no further item is pulled, no further append call is
made, and the composite's own `end` call is never made once an error has
occurred.  Exact-run clauses over primitive items: a source pull failing
after `k` elements leaves the sink with the composite-begin call and
exactly those `k` element appends, never `end_sequence`, and a
source-tagged error at the `transcode` caller; a sink failing at the
append of element `i` (resp. at the key append of entry `i`) stops the
loop at that call with a sink-tagged error at the caller; a key pull
failing after all entries of a keyed collection likewise leaves exactly
the full entry appends, never `end_map`, and a source-tagged error. -/
theorem composite_error_short_circuit (hint : Option Nat) (es : List SValue)
    (entries : List (SValue × SValue)) (msg : String) (i : Nat)
    (pf : Option String) (st : SerState) :
    (∀ (e : SValue) (rest : List SValue) (pg : Option String) (s₀ : SerState)
        (de : DeError), (elem_step e s₀).2 = Except.error de →
      seq_loop (e :: rest) pg s₀ = ((elem_step e s₀).1, Except.error de)) ∧
    (∀ (e : SValue) (rest : List SValue) (pg : Option String) (s₀ : SerState)
        (se : SerError), (elem_step e s₀).2 = Except.ok (Except.error se) →
      seq_loop (e :: rest) pg s₀ =
        ((elem_step e s₀).1, Except.ok (Except.error se))) ∧
    (∀ (k v : SValue) (rest : List (SValue × SValue)) (pg : Option String)
        (s₀ : SerState) (de : DeError), (key_step k s₀).2 = Except.error de →
      map_loop ((k, v) :: rest) pg s₀ = ((key_step k s₀).1, Except.error de)) ∧
    (∀ (k v : SValue) (rest : List (SValue × SValue)) (pg : Option String)
        (s₀ : SerState) (se : SerError),
        (key_step k s₀).2 = Except.ok (Except.error se) →
      map_loop ((k, v) :: rest) pg s₀ =
        ((key_step k s₀).1, Except.ok (Except.error se))) ∧
    (∀ (k v : SValue) (rest : List (SValue × SValue)) (pg : Option String)
        (s₀ : SerState) (de : DeError),
        (key_step k s₀).2 = Except.ok (Except.ok ()) →
        (value_step v (key_step k s₀).1).2 = Except.error de →
      map_loop ((k, v) :: rest) pg s₀ =
        ((value_step v (key_step k s₀).1).1, Except.error de)) ∧
    (∀ (k v : SValue) (rest : List (SValue × SValue)) (pg : Option String)
        (s₀ : SerState) (se : SerError),
        (key_step k s₀).2 = Except.ok (Except.ok ()) →
        (value_step v (key_step k s₀).1).2 = Except.ok (Except.error se) →
      map_loop ((k, v) :: rest) pg s₀ =
        ((value_step v (key_step k s₀).1).1, Except.ok (Except.error se))) ∧
    ((∀ e ∈ es, (primCall e).isSome) → st.failAt = none →
      deserialize_any (SValue.seq hint es (some msg)) st =
        ({ st with
            trace := st.trace ++ Event.call (SerCall.seqBegin hint) ::
              (elemTrace es ++ [Event.pullElement]),
            calls := st.calls + 1 + 2 * es.length },
          Except.error (DeError.custom msg)) ∧
      (transcode (SValue.seq hint es (some msg)) st).2 =
        Except.error (Error.deserializerError (DeError.custom msg))) ∧
    ((∀ e ∈ es, (primCall e).isSome) → i < es.length →
      st.failAt = some (st.calls + 1 + 2 * i) →
      deserialize_any (SValue.seq hint es pf) st =
        ({ st with
            trace := st.trace ++ Event.call (SerCall.seqBegin hint) ::
              (elemTrace (es.take i) ++
                [Event.pullElement, Event.call SerCall.elementBegin]),
            calls := st.calls + 2 + 2 * i },
          Except.ok (Except.error (SerError.failed (st.calls + 1 + 2 * i)))) ∧
      (transcode (SValue.seq hint es pf) st).2 =
        Except.error (Error.serializerError (SerError.failed (st.calls + 1 + 2 * i)))) ∧
    ((∀ kv ∈ entries, (primCall kv.1).isSome ∧ (primCall kv.2).isSome) →
      st.failAt = none →
      deserialize_any (SValue.map hint entries (some msg)) st =
        ({ st with
            trace := st.trace ++ Event.call (SerCall.mapBegin hint) ::
              (entryTrace entries ++ [Event.pullKey]),
            calls := st.calls + 1 + 4 * entries.length },
          Except.error (DeError.custom msg)) ∧
      (transcode (SValue.map hint entries (some msg)) st).2 =
        Except.error (Error.deserializerError (DeError.custom msg))) ∧
    ((∀ kv ∈ entries, (primCall kv.1).isSome ∧ (primCall kv.2).isSome) →
      i < entries.length → st.failAt = some (st.calls + 1 + 4 * i) →
      deserialize_any (SValue.map hint entries pf) st =
        ({ st with
            trace := st.trace ++ Event.call (SerCall.mapBegin hint) ::
              (entryTrace (entries.take i) ++
                [Event.pullKey, Event.call SerCall.keyBegin]),
            calls := st.calls + 2 + 4 * i },
          Except.ok (Except.error (SerError.failed (st.calls + 1 + 4 * i)))) ∧
      (transcode (SValue.map hint entries pf) st).2 =
        Except.error (Error.serializerError (SerError.failed (st.calls + 1 + 4 * i)))) := by
  refine ⟨?_, ?_, ?_, ?_, ?_, ?_, ?_, ?_, ?_, ?_⟩
  · intro e rest pg s₀ de h
    rcases he : elem_step e s₀ with ⟨st₂, res⟩
    rw [he] at h
    simp only at h
    subst h
    rw [seq_loop_cons, he]
  · intro e rest pg s₀ se h
    rcases he : elem_step e s₀ with ⟨st₂, res⟩
    rw [he] at h
    simp only at h
    subst h
    rw [seq_loop_cons, he]
  · intro k v rest pg s₀ de h
    rcases hk : key_step k s₀ with ⟨st₂, res⟩
    rw [hk] at h
    simp only at h
    subst h
    rw [map_loop_cons, hk]
  · intro k v rest pg s₀ se h
    rcases hk : key_step k s₀ with ⟨st₂, res⟩
    rw [hk] at h
    simp only at h
    subst h
    rw [map_loop_cons, hk]
  · intro k v rest pg s₀ de hk hv
    rcases hke : key_step k s₀ with ⟨st₂, kres⟩
    rw [hke] at hk hv
    simp only at hk hv
    subst hk
    rcases hve : value_step v st₂ with ⟨st₄, vres⟩
    rw [hve] at hv
    simp only at hv
    subst hv
    rw [map_loop_cons, hke]
    dsimp only
    rw [hve]
  · intro k v rest pg s₀ se hk hv
    rcases hke : key_step k s₀ with ⟨st₂, kres⟩
    rw [hke] at hk hv
    simp only at hk hv
    subst hk
    rcases hve : value_step v st₂ with ⟨st₄, vres⟩
    rw [hve] at hv
    simp only at hv
    subst hv
    rw [map_loop_cons, hke]
    dsimp only
    rw [hve]
  · intro hp hf
    have hda : deserialize_any (SValue.seq hint es (some msg)) st =
        ({ st with
            trace := st.trace ++ Event.call (SerCall.seqBegin hint) ::
              (elemTrace es ++ [Event.pullElement]),
            calls := st.calls + 1 + 2 * es.length },
          Except.error (DeError.custom msg)) := by
      rw [deserialize_any]
      have h1 : (serCall st (SerCall.seqBegin hint)).2 = .ok () :=
        serCall_snd_of_no_fail _ _ hf
      rw [h1]
      dsimp only
      rw [seq_loop_clean es msg _ hp (by simp [serCall_fst, hf])]
      simp [serCall_fst]
    refine ⟨hda, ?_⟩
    rw [transcode_spec, hda]
  · intro hp hi hf
    have hda : deserialize_any (SValue.seq hint es pf) st =
        ({ st with
            trace := st.trace ++ Event.call (SerCall.seqBegin hint) ::
              (elemTrace (es.take i) ++
                [Event.pullElement, Event.call SerCall.elementBegin]),
            calls := st.calls + 2 + 2 * i },
          Except.ok (Except.error (SerError.failed (st.calls + 1 + 2 * i)))) := by
      rw [deserialize_any]
      have h1 : (serCall st (SerCall.seqBegin hint)).2 = .ok () :=
        serCall_snd_of_ne _ _ (st.calls + 1 + 2 * i) hf (by omega)
      rw [h1]
      dsimp only
      rw [seq_loop_sink_fail es i pf _ hp hi (by simp [serCall_fst, hf])]
      rw [serCall_fst]
      refine Prod.ext ?_ ?_
      · simp only []
        refine (SerState.mk.injEq _ _ _ _ _ _).mpr ⟨by simp, by omega, rfl⟩
      · simp only [Except.ok.injEq, Except.error.injEq, SerError.failed.injEq]
    refine ⟨hda, ?_⟩
    rw [transcode_spec, hda]
  · intro hp hf
    have hda : deserialize_any (SValue.map hint entries (some msg)) st =
        ({ st with
            trace := st.trace ++ Event.call (SerCall.mapBegin hint) ::
              (entryTrace entries ++ [Event.pullKey]),
            calls := st.calls + 1 + 4 * entries.length },
          Except.error (DeError.custom msg)) := by
      rw [deserialize_any]
      have h1 : (serCall st (SerCall.mapBegin hint)).2 = .ok () :=
        serCall_snd_of_no_fail _ _ hf
      rw [h1]
      dsimp only
      rw [map_loop_clean entries msg _ hp (by simp [serCall_fst, hf])]
      simp [serCall_fst]
    refine ⟨hda, ?_⟩
    rw [transcode_spec, hda]
  · intro hp hi hf
    have hda : deserialize_any (SValue.map hint entries pf) st =
        ({ st with
            trace := st.trace ++ Event.call (SerCall.mapBegin hint) ::
              (entryTrace (entries.take i) ++
                [Event.pullKey, Event.call SerCall.keyBegin]),
            calls := st.calls + 2 + 4 * i },
          Except.ok (Except.error (SerError.failed (st.calls + 1 + 4 * i)))) := by
      rw [deserialize_any]
      have h1 : (serCall st (SerCall.mapBegin hint)).2 = .ok () :=
        serCall_snd_of_ne _ _ (st.calls + 1 + 4 * i) hf (by omega)
      rw [h1]
      dsimp only
      rw [map_loop_sink_fail entries i pf _ hp hi (by simp [serCall_fst, hf])]
      rw [serCall_fst]
      refine Prod.ext ?_ ?_
      · simp only []
        refine (SerState.mk.injEq _ _ _ _ _ _).mpr ⟨by simp, by omega, rfl⟩
      · simp only [Except.ok.injEq, Except.error.injEq, SerError.failed.injEq]
    refine ⟨hda, ?_⟩
    rw [transcode_spec, hda]

/-- C6 witness: concrete aborts for every clause — a failing element,
key, or value round (from either side) stops the respective loop in that
round's state, and the four exact runs leave the correctly tagged error
at the `transcode` caller. -/
theorem composite_error_short_circuit_witness :
    seq_loop [SValue.fail "bad", SValue.vI8 5] none init0 =
        ((elem_step (SValue.fail "bad") init0).1,
          Except.error (DeError.custom "bad")) ∧
    seq_loop [SValue.vI8 5] none { trace := [], calls := 0, failAt := some 0 } =
        ((elem_step (SValue.vI8 5) { trace := [], calls := 0, failAt := some 0 }).1,
          Except.ok (Except.error (SerError.failed 0))) ∧
    map_loop [(SValue.fail "bad", SValue.vUnit)] none init0 =
        ((key_step (SValue.fail "bad") init0).1,
          Except.error (DeError.custom "bad")) ∧
    map_loop [(SValue.vStr "k", SValue.vUnit)] none
        { trace := [], calls := 0, failAt := some 0 } =
        ((key_step (SValue.vStr "k") { trace := [], calls := 0, failAt := some 0 }).1,
          Except.ok (Except.error (SerError.failed 0))) ∧
    map_loop [(SValue.vStr "k", SValue.fail "bad")] none init0 =
        ((value_step (SValue.fail "bad") (key_step (SValue.vStr "k") init0).1).1,
          Except.error (DeError.custom "bad")) ∧
    map_loop [(SValue.vStr "k", SValue.vUnit)] none
        { trace := [], calls := 0, failAt := some 2 } =
        ((value_step SValue.vUnit
            (key_step (SValue.vStr "k")
              { trace := [], calls := 0, failAt := some 2 }).1).1,
          Except.ok (Except.error (SerError.failed 2))) ∧
    (transcode (SValue.seq none [SValue.vI8 1, SValue.vI8 2] (some "eof")) init0).2 =
        Except.error (Error.deserializerError (DeError.custom "eof")) ∧
    (transcode (SValue.seq none [SValue.vI8 1, SValue.vI8 2] none)
        { trace := [], calls := 0, failAt := some 1 }).2 =
        Except.error (Error.serializerError (SerError.failed 1)) ∧
    (transcode (SValue.map none [(SValue.vStr "k", SValue.vU8 7)] (some "eof")) init0).2 =
        Except.error (Error.deserializerError (DeError.custom "eof")) ∧
    (transcode (SValue.map none [(SValue.vStr "k", SValue.vU8 7)] none)
        { trace := [], calls := 0, failAt := some 1 }).2 =
        Except.error (Error.serializerError (SerError.failed 1)) := by
  refine ⟨?_, ?_, ?_, ?_, ?_, ?_, ?_, ?_, ?_, ?_⟩
  · exact (composite_error_short_circuit none [] [] "" 0 none init0).1
      (SValue.fail "bad") [SValue.vI8 5] none init0 (DeError.custom "bad")
      (by simp [elem_step, serCall, recordPull, init0, deserialize_any])
  · exact (composite_error_short_circuit none [] [] "" 0 none init0).2.1
      (SValue.vI8 5) [] none { trace := [], calls := 0, failAt := some 0 }
      (SerError.failed 0)
      (by simp [elem_step, serCall, recordPull])
  · exact (composite_error_short_circuit none [] [] "" 0 none init0).2.2.1
      (SValue.fail "bad") SValue.vUnit [] none init0 (DeError.custom "bad")
      (by simp [key_step, serCall, recordPull, init0, deserialize_any])
  · exact (composite_error_short_circuit none [] [] "" 0 none init0).2.2.2.1
      (SValue.vStr "k") SValue.vUnit [] none
      { trace := [], calls := 0, failAt := some 0 } (SerError.failed 0)
      (by simp [key_step, serCall, recordPull])
  · exact (composite_error_short_circuit none [] [] "" 0 none init0).2.2.2.2.1
      (SValue.vStr "k") (SValue.fail "bad") [] none init0 (DeError.custom "bad")
      (by simp [key_step, serCall, recordPull, init0, deserialize_any])
      (by simp [key_step, value_step, serCall, recordPull, init0, deserialize_any])
  · exact (composite_error_short_circuit none [] [] "" 0 none init0).2.2.2.2.2.1
      (SValue.vStr "k") SValue.vUnit [] none
      { trace := [], calls := 0, failAt := some 2 } (SerError.failed 2)
      (by simp [key_step, serCall, recordPull, deserialize_any])
      (by simp [key_step, value_step, serCall, recordPull, deserialize_any])
  · exact ((composite_error_short_circuit none [SValue.vI8 1, SValue.vI8 2] [] "eof" 0
      none init0).2.2.2.2.2.2.1 (by simp [primCall]) rfl).2
  · exact ((composite_error_short_circuit none [SValue.vI8 1, SValue.vI8 2] [] "x" 0
      none { trace := [], calls := 0, failAt := some 1 }).2.2.2.2.2.2.2.1
      (by simp [primCall]) (by simp) rfl).2
  · exact ((composite_error_short_circuit none [] [(SValue.vStr "k", SValue.vU8 7)] "eof" 0
      none init0).2.2.2.2.2.2.2.2.1 (by simp [primCall]) rfl).2
  · exact ((composite_error_short_circuit none [] [(SValue.vStr "k", SValue.vU8 7)] "x" 0
      none { trace := [], calls := 0, failAt := some 1 }).2.2.2.2.2.2.2.2.2
      (by simp [primCall]) (by simp) rfl).2

end SerdeTranscode
